import Mathlib

/-
  Verification of the procedural texture-synthesis engine (the
  TextureGenerator object of the repository's garden-elements module).

  The JavaScript number arithmetic of the source is embedded into ℚ.
  The permutation array (a Uint8Array of length 512) is embedded as a
  function ℕ → ℕ; buffers are functions from pixel indices.  Writes
  into an ImageData pixel store go through a Uint8ClampedArray, which
  clamps every stored channel into [0, 255]; that store-time clamp is
  modelled by clampByte (the rounding it also performs is irrelevant
  to the claims and omitted).  A JS float division that would yield a
  non-finite value (division of 1 by 0) is modelled with Option.
-/

/-- The quintic ease curve of the source: fade(t) = t*t*t*(t*(t*6-15)+10). -/
def fade (t : ℚ) : ℚ := t * t * t * (t * (t * 6 - 15) + 10)

/-- Linear interpolation of the source: lerp(t, a, b) = a + t*(b-a). -/
def lerp (t a b : ℚ) : ℚ := a + t * (b - a)

/-- Gradient selection of the source: the low 4 bits of the hash pick one of
16 gradient directions; (h AND 1) and (h AND 2) pick the signs. -/
def grad (hash : ℕ) (x y z : ℚ) : ℚ :=
  let h := hash % 16
  let u := if h < 8 then x else y
  let v := if h < 4 then y else if h = 12 ∨ h = 14 then x else z
  (if h % 2 = 0 then u else -u) + (if h % 4 < 2 then v else -v)

/-- The 3D lattice gradient-noise primitive of the source, parametrised by the
permutation table p (the 512-entry perm array read as a function).  Integer
cell coordinates are reduced with Math.floor(x) AND 255, which on in-range
integers is the Euclidean remainder modulo 256. -/
def noiseP (p : ℕ → ℕ) (x y z : ℚ) : ℚ :=
  let X : ℕ := (⌊x⌋ % 256).toNat
  let Y : ℕ := (⌊y⌋ % 256).toNat
  let Z : ℕ := (⌊z⌋ % 256).toNat
  let xf : ℚ := x - (⌊x⌋ : ℚ)
  let yf : ℚ := y - (⌊y⌋ : ℚ)
  let zf : ℚ := z - (⌊z⌋ : ℚ)
  let u := fade xf
  let v := fade yf
  let w := fade zf
  let A := p X + Y
  let AA := p A + Z
  let AB := p (A + 1) + Z
  let B := p (X + 1) + Y
  let BA := p B + Z
  let BB := p (B + 1) + Z
  lerp w
    (lerp v (lerp u (grad (p AA) xf yf zf) (grad (p BA) (xf - 1) yf zf))
      (lerp u (grad (p AB) xf (yf - 1) zf) (grad (p BB) (xf - 1) (yf - 1) zf)))
    (lerp v (lerp u (grad (p (AA + 1)) xf yf (zf - 1)) (grad (p (BA + 1)) (xf - 1) yf (zf - 1)))
      (lerp u (grad (p (AB + 1)) xf (yf - 1) (zf - 1))
        (grad (p (BB + 1)) (xf - 1) (yf - 1) (zf - 1))))

/-- The accumulator loop of fbm: octaves remaining, current frequency and
amplitude, accumulated total and maxValue, exactly as the source's for-loop
(total += noise(x*frequency, ...) * amplitude; maxValue += amplitude;
amplitude *= persistence; frequency *= 2). -/
def fbmAux (p : ℕ → ℕ) (x y z pers : ℚ) : ℕ → ℚ → ℚ → ℚ → ℚ → ℚ × ℚ
  | 0, _, _, total, maxV => (total, maxV)
  | n + 1, freq, amp, total, maxV =>
      fbmAux p x y z pers n (freq * 2) (amp * pers)
        (total + noiseP p (x * freq) (y * freq) (z * freq) * amp) (maxV + amp)

/-- Fractal Brownian motion of the source: run the octave loop starting from
frequency = scale and amplitude = 1, then divide total by maxValue. -/
def fbm (p : ℕ → ℕ) (x y z : ℚ) (octaves : ℕ) (pers scale : ℚ) : ℚ :=
  (fbmAux p x y z pers octaves scale 1 0 0).1 / (fbmAux p x y z pers octaves scale 1 0 0).2

/-- One array swap of the Fisher-Yates loop, on the array-as-function view:
after swapping positions i and j, reading k gives the old value at the
swapped position. -/
def swapF (p : ℕ → ℕ) (i j : ℕ) : ℕ → ℕ :=
  fun k => if k = i then p j else if k = j then p i else p k

/-- The Fisher-Yates loop of setup: for i = n down to 1, swap p[i] with
p[r i], where r i is the random draw Math.floor(Math.random()*(i+1)). -/
def fyAux (r : ℕ → ℕ) : ℕ → (ℕ → ℕ) → (ℕ → ℕ)
  | 0, p => p
  | n + 1, p => fyAux r n (swapF p (n + 1) (r (n + 1)))

/-- The shuffled 256-entry array p of setup, starting from the identity array
new Uint8Array(256).map((_, i) => i). -/
def shuffle (r : ℕ → ℕ) : ℕ → ℕ := fyAux r 255 (fun i => i)

/-- The 512-entry perm table of setup: perm[i] = p[i AND 255]; on indices
below 512 the bit mask is exactly the remainder modulo 256. -/
def permTable (r : ℕ → ℕ) : ℕ → ℕ := fun i => shuffle r (i % 256)

/-- The mutable state of the TextureGenerator object: the perm table and the
init flag.  rngIdx (position in the ambient Math.random stream used by the
bamboo scuff overlay) and synthCount (how many times a per-pixel synthesis
loop has run) are observation fields; the spec's testable properties ask for
exactly such a synthesis-call counter. -/
structure GenState where
  perm : ℕ → ℕ
  init : Bool
  rngIdx : ℕ
  synthCount : ℕ

/-- setup(): if the init flag is set, return unchanged; otherwise install the
freshly shuffled permutation table and set the flag. -/
def setupS (r : ℕ → ℕ) (s : GenState) : GenState :=
  if s.init then s
  else { perm := permTable r, init := true, rngIdx := s.rngIdx, synthCount := s.synthCount }

/-- noise(x,y,z) as the source exposes it on the stateful object: it first
runs setup if the init flag is unset, then evaluates the pure primitive on
the (unchanged) table. -/
def noiseS (r : ℕ → ℕ) (s : GenState) (x y z : ℚ) : ℚ × GenState :=
  let s1 := setupS r s
  (noiseP s1.perm x y z, s1)

/-- Claim C9: the smoothing curve applied to each fractional coordinate is
exactly the quintic 6t^5 - 15t^4 + 10t^3, for every t. -/
theorem claim_C9 (t : ℚ) : fade t = 6 * t ^ 5 - 15 * t ^ 4 + 10 * t ^ 3 := by
  unfold fade; ring

/-- Claim C10: at every integer coordinate triple the gradient-noise
primitive returns exactly 0, for any permutation table: the eased fractional
offsets are all 0, so the trilinear interpolation selects the corner whose
offset vector is zero, and the gradient dotted with the zero offset
vanishes. -/
theorem claim_C10 (p : ℕ → ℕ) (a b c : ℤ) :
    noiseP p (a : ℚ) (b : ℚ) (c : ℚ) = 0 := by
  simp [noiseP, fade, lerp, grad]

/-- Unfolding of the fbm octave loop into closed-form sums: starting from any
frequency, amplitude, and accumulators, the loop adds one noise sample per
octave, each at double the previous frequency and with the amplitude
multiplied by the persistence, and accumulates the amplitudes into the
maximum value. -/
theorem fbmAux_eq (p : ℕ → ℕ) (x y z pers : ℚ) :
    ∀ (n : ℕ) (freq amp total maxV : ℚ),
      fbmAux p x y z pers n freq amp total maxV =
        (total + ∑ i in Finset.range n,
            noiseP p (x * (freq * 2 ^ i)) (y * (freq * 2 ^ i)) (z * (freq * 2 ^ i))
              * (amp * pers ^ i),
         maxV + ∑ i in Finset.range n, amp * pers ^ i) := by
  intro n
  induction n with
  | zero => intro freq amp total maxV; simp [fbmAux]
  | succ n ih =>
      intro freq amp total maxV
      rw [fbmAux, ih]
      refine Prod.ext ?_ ?_
      · show total + noiseP p (x * freq) (y * freq) (z * freq) * amp
            + ∑ i in Finset.range n,
                noiseP p (x * (freq * 2 * 2 ^ i)) (y * (freq * 2 * 2 ^ i))
                  (z * (freq * 2 * 2 ^ i)) * (amp * pers * pers ^ i)
          = total + ∑ i in Finset.range (n + 1),
                noiseP p (x * (freq * 2 ^ i)) (y * (freq * 2 ^ i)) (z * (freq * 2 ^ i))
                  * (amp * pers ^ i)
        rw [Finset.sum_range_succ']
        have hsum :
            ∑ i in Finset.range n,
              noiseP p (x * (freq * 2 * 2 ^ i)) (y * (freq * 2 * 2 ^ i))
                (z * (freq * 2 * 2 ^ i)) * (amp * pers * pers ^ i)
          = ∑ i in Finset.range n,
              noiseP p (x * (freq * 2 ^ (i + 1))) (y * (freq * 2 ^ (i + 1)))
                (z * (freq * 2 ^ (i + 1))) * (amp * pers ^ (i + 1)) := by
          refine Finset.sum_congr rfl ?_
          intro i _
          rw [show x * (freq * 2 * 2 ^ i) = x * (freq * 2 ^ (i + 1)) by ring,
            show y * (freq * 2 * 2 ^ i) = y * (freq * 2 ^ (i + 1)) by ring,
            show z * (freq * 2 * 2 ^ i) = z * (freq * 2 ^ (i + 1)) by ring]
          ring
        rw [hsum]
        simp only [pow_zero, mul_one]
        ring
      · show maxV + amp + ∑ i in Finset.range n, amp * pers * pers ^ i
          = maxV + ∑ i in Finset.range (n + 1), amp * pers ^ i
        rw [Finset.sum_range_succ']
        have hsum : ∑ i in Finset.range n, amp * pers * pers ^ i
            = ∑ i in Finset.range n, amp * pers ^ (i + 1) := by
          refine Finset.sum_congr rfl ?_
          intro i _
          ring
        rw [hsum]
        simp only [pow_zero, mul_one]
        ring

/-- Claim C8: with octave count 1, fbm collapses to the base noise evaluated
at the scaled coordinates; in general each octave i contributes the noise at
frequency scale * 2^i weighted by persistence^i (frequency starting at scale
and doubling, amplitude starting at 1 and shrinking by the persistence), and
the accumulated sum is divided by the accumulated maximum amplitude. -/
theorem claim_C8 (p : ℕ → ℕ) (x y z pers s : ℚ) :
    fbm p x y z 1 pers s = noiseP p (x * s) (y * s) (z * s) ∧
    ∀ oct : ℕ, fbm p x y z oct pers s =
      (∑ i in Finset.range oct,
          noiseP p (x * (s * 2 ^ i)) (y * (s * 2 ^ i)) (z * (s * 2 ^ i)) * pers ^ i)
        / (∑ i in Finset.range oct, pers ^ i) := by
  constructor
  · simp [fbm, fbmAux_eq]
  · intro oct
    simp [fbm, fbmAux_eq]

/-- An array-as-function is a permutation of the index range below n: it maps
indices below n into values below n, and every value below n is hit by
exactly one index below n. -/
def PermBelow (f : ℕ → ℕ) (n : ℕ) : Prop :=
  (∀ k, k < n → f k < n) ∧ (∀ v, v < n → ∃! k, k < n ∧ f k = v)

theorem swapF_eq_comp (p : ℕ → ℕ) (i j : ℕ) :
    swapF p i j = fun k => p (Equiv.swap i j k) := by
  funext k
  simp only [swapF, Equiv.swap_apply_def]
  split_ifs <;> rfl

theorem swap_lt (i j k n : ℕ) (hi : i < n) (hj : j < n) (hk : k < n) :
    Equiv.swap i j k < n := by
  rw [Equiv.swap_apply_def]
  split_ifs <;> assumption

theorem permBelow_swap (p : ℕ → ℕ) (n i j : ℕ) (hi : i < n) (hj : j < n)
    (hp : PermBelow p n) : PermBelow (swapF p i j) n := by
  obtain ⟨hmap, huniq⟩ := hp
  rw [swapF_eq_comp]
  constructor
  · intro k hk
    exact hmap _ (swap_lt i j k n hi hj hk)
  · intro v hv
    obtain ⟨k0, ⟨hk0, hk0v⟩, hk0u⟩ := huniq v hv
    refine ⟨Equiv.swap i j k0, ⟨swap_lt i j k0 n hi hj hk0, ?_⟩, ?_⟩
    · simp only [Equiv.swap_apply_self]
      exact hk0v
    · intro k' ⟨hk', hk'v⟩
      have h1 : Equiv.swap i j k' = k0 :=
        hk0u _ ⟨swap_lt i j k' n hi hj hk', hk'v⟩
      have h2 : Equiv.swap i j (Equiv.swap i j k') = Equiv.swap i j k0 := by rw [h1]
      rwa [Equiv.swap_apply_self] at h2

theorem fyAux_permBelow (r : ℕ → ℕ) (hr : ∀ i, r i ≤ i) :
    ∀ (n : ℕ) (p : ℕ → ℕ), n ≤ 255 → PermBelow p 256 → PermBelow (fyAux r n p) 256 := by
  intro n
  induction n with
  | zero => intro p _ hp; exact hp
  | succ n ih =>
      intro p hn hp
      rw [fyAux]
      refine ih _ (by omega) ?_
      refine permBelow_swap p 256 (n + 1) (r (n + 1)) (by omega) ?_ hp
      have := hr (n + 1)
      omega

theorem shuffle_permBelow (r : ℕ → ℕ) (hr : ∀ i, r i ≤ i) :
    PermBelow (shuffle r) 256 := by
  refine fyAux_permBelow r hr 255 (fun i => i) (by omega) ?_
  constructor
  · intro k hk; exact hk
  · intro v hv
    exact ⟨v, ⟨hv, rfl⟩, fun k hk => hk.2⟩

/-- Claim C7: after initialization the 256-entry shuffled array holds every
value 0..255 exactly once; the mirrored half repeats it (perm of i+256 equals
perm of i); a second setup call leaves the whole state unchanged; and a noise
evaluation leaves the state unchanged (it only reads the table). -/
theorem claim_C7 (r : ℕ → ℕ) (hr : ∀ i, r i ≤ i) (s : GenState)
    (hs : s.init = false) :
    (∀ v, v < 256 → ∃! k, k < 256 ∧ (setupS r s).perm k = v) ∧
    (∀ i, (setupS r s).perm (i + 256) = (setupS r s).perm i) ∧
    (∀ r2, setupS r2 (setupS r s) = setupS r s) ∧
    (∀ r2 x y z, (noiseS r2 (setupS r s) x y z).2 = setupS r s) := by
  have hperm : (setupS r s).perm = permTable r := by
    simp [setupS, hs]
  have hinit : (setupS r s).init = true := by
    simp [setupS, hs]
  refine ⟨?_, ?_, ?_, ?_⟩
  · intro v hv
    obtain ⟨k0, ⟨hk0, hk0v⟩, hk0u⟩ := (shuffle_permBelow r hr).2 v hv
    refine ⟨k0, ⟨hk0, ?_⟩, ?_⟩
    · rw [hperm]
      show shuffle r (k0 % 256) = v
      rwa [Nat.mod_eq_of_lt hk0]
    · intro k' ⟨hk', hk'v⟩
      rw [hperm] at hk'v
      refine hk0u k' ⟨hk', ?_⟩
      have : shuffle r (k' % 256) = v := hk'v
      rwa [Nat.mod_eq_of_lt hk'] at this
  · intro i
    rw [hperm]
    show shuffle r ((i + 256) % 256) = shuffle r (i % 256)
    rw [Nat.add_mod_right]
  · intro r2
    simp [setupS, hs]
  · intro r2 x y z
    simp [noiseS, setupS, hs]

/-- The base state used to instantiate the stateful theorems: an
uninitialized generator. -/
def s0 : GenState := { perm := fun _ => 0, init := false, rngIdx := 0, synthCount := 0 }

/-- Witness for claim C7, at the random draws that always pick index 0 and
the uninitialized base state. -/
theorem claim_C7_witness :
    (∀ i : ℕ, (fun _ : ℕ => 0) i ≤ i) ∧ s0.init = false ∧
    ((∀ v, v < 256 → ∃! k, k < 256 ∧ (setupS (fun _ => 0) s0).perm k = v) ∧
     (∀ i, (setupS (fun _ => 0) s0).perm (i + 256) = (setupS (fun _ => 0) s0).perm i) ∧
     (∀ r2, setupS r2 (setupS (fun _ => 0) s0) = setupS (fun _ => 0) s0) ∧
     (∀ r2 x y z, (noiseS r2 (setupS (fun _ => 0) s0) x y z).2 = setupS (fun _ => 0) s0)) :=
  ⟨fun i => Nat.zero_le i, rfl, claim_C7 (fun _ => 0) (fun i => Nat.zero_le i) s0 rfl⟩

theorem fade_nonneg (t : ℚ) (h0 : 0 ≤ t) : 0 ≤ fade t := by
  have hfac : fade t = t * t * t * (6 * (t - 5/4) ^ 2 + 5/8) := by
    unfold fade; ring
  rw [hfac]
  have h1 : (0:ℚ) ≤ 6 * (t - 5/4) ^ 2 + 5/8 := by positivity
  positivity

theorem fade_le_one (t : ℚ) (h0 : 0 ≤ t) (h1 : t ≤ 1) : fade t ≤ 1 := by
  have hfac : 1 - fade t = (1 - t) ^ 3 * (6 * t ^ 2 + 3 * t + 1) := by
    unfold fade; ring
  nlinarith [pow_nonneg (by linarith : (0:ℚ) ≤ 1 - t) 3,
    (by positivity : (0:ℚ) < 6 * t ^ 2 + 3 * t + 1)]

theorem grad_abs_le (h : ℕ) (x y z : ℚ) (hx : |x| ≤ 1) (hy : |y| ≤ 1)
    (hz : |z| ≤ 1) : |grad h x y z| ≤ 2 := by
  obtain ⟨hx1, hx2⟩ := abs_le.1 hx
  obtain ⟨hy1, hy2⟩ := abs_le.1 hy
  obtain ⟨hz1, hz2⟩ := abs_le.1 hz
  simp only [grad]
  split_ifs <;> (rw [abs_le]; exact ⟨by linarith, by linarith⟩)

theorem lerp_abs_le (t a b M : ℚ) (h0 : 0 ≤ t) (h1 : t ≤ 1) (ha : |a| ≤ M)
    (hb : |b| ≤ M) : |lerp t a b| ≤ M := by
  have heq : lerp t a b = (1 - t) * a + t * b := by unfold lerp; ring
  rw [heq]
  calc |(1 - t) * a + t * b| ≤ |(1 - t) * a| + |t * b| := abs_add _ _
    _ = (1 - t) * |a| + t * |b| := by
        rw [abs_mul, abs_mul, abs_of_nonneg (by linarith : (0:ℚ) ≤ 1 - t), abs_of_nonneg h0]
    _ ≤ (1 - t) * M + t * M := by
        exact add_le_add (mul_le_mul_of_nonneg_left ha (by linarith))
          (mul_le_mul_of_nonneg_left hb h0)
    _ = M := by ring

/-- The gradient-noise primitive is bounded by 2 in absolute value: each
corner gradient is a dot product of a direction with coefficients in
{-1,0,1} against an offset vector whose coordinates lie in [-1,1], so it is
bounded by 2, and the trilinear interpolation with eased weights in [0,1]
preserves the bound. -/
theorem noiseP_abs_le (p : ℕ → ℕ) (x y z : ℚ) : |noiseP p x y z| ≤ 2 := by
  have hxf0 : (0:ℚ) ≤ x - (⌊x⌋ : ℚ) := sub_nonneg.2 (Int.floor_le x)
  have hxf1 : x - (⌊x⌋ : ℚ) < 1 := by
    have := Int.lt_floor_add_one x; linarith
  have hyf0 : (0:ℚ) ≤ y - (⌊y⌋ : ℚ) := sub_nonneg.2 (Int.floor_le y)
  have hyf1 : y - (⌊y⌋ : ℚ) < 1 := by
    have := Int.lt_floor_add_one y; linarith
  have hzf0 : (0:ℚ) ≤ z - (⌊z⌋ : ℚ) := sub_nonneg.2 (Int.floor_le z)
  have hzf1 : z - (⌊z⌋ : ℚ) < 1 := by
    have := Int.lt_floor_add_one z; linarith
  have habs : ∀ w : ℚ, 0 ≤ w → w < 1 → |w| ≤ 1 ∧ |w - 1| ≤ 1 := by
    intro w h0 h1
    constructor <;> rw [abs_le] <;> constructor <;> linarith
  obtain ⟨hax, hax1⟩ := habs _ hxf0 hxf1
  obtain ⟨hay, hay1⟩ := habs _ hyf0 hyf1
  obtain ⟨haz, haz1⟩ := habs _ hzf0 hzf1
  show |lerp (fade (z - (⌊z⌋ : ℚ))) _ _| ≤ 2
  refine lerp_abs_le _ _ _ _ (fade_nonneg _ hzf0) (fade_le_one _ hzf0 (le_of_lt hzf1)) ?_ ?_ <;>
    refine lerp_abs_le _ _ _ _ (fade_nonneg _ hyf0) (fade_le_one _ hyf0 (le_of_lt hyf1)) ?_ ?_ <;>
    refine lerp_abs_le _ _ _ _ (fade_nonneg _ hxf0) (fade_le_one _ hxf0 (le_of_lt hxf1)) ?_ ?_ <;>
    first
      | exact grad_abs_le _ _ _ _ hax hay haz
      | exact grad_abs_le _ _ _ _ hax1 hay haz
      | exact grad_abs_le _ _ _ _ hax hay1 haz
      | exact grad_abs_le _ _ _ _ hax1 hay1 haz
      | exact grad_abs_le _ _ _ _ hax hay haz1
      | exact grad_abs_le _ _ _ _ hax1 hay haz1
      | exact grad_abs_le _ _ _ _ hax hay1 haz1
      | exact grad_abs_le _ _ _ _ hax1 hay1 haz1

theorem fbmAux_abs_le (p : ℕ → ℕ) (x y z pers : ℚ) (hp : 0 ≤ pers) :
    ∀ (n : ℕ) (freq amp total maxV : ℚ), 0 ≤ amp → 0 ≤ maxV → |total| ≤ 2 * maxV →
      |(fbmAux p x y z pers n freq amp total maxV).1|
        ≤ 2 * (fbmAux p x y z pers n freq amp total maxV).2 ∧
      0 ≤ (fbmAux p x y z pers n freq amp total maxV).2 := by
  intro n
  induction n with
  | zero => intro freq amp total maxV _ hm ht; exact ⟨ht, hm⟩
  | succ n ih =>
      intro freq amp total maxV hamp hm ht
      rw [fbmAux]
      refine ih _ _ _ _ (mul_nonneg hamp hp) (by linarith) ?_
      calc |total + noiseP p (x * freq) (y * freq) (z * freq) * amp|
          ≤ |total| + |noiseP p (x * freq) (y * freq) (z * freq) * amp| := abs_add _ _
        _ = |total| + |noiseP p (x * freq) (y * freq) (z * freq)| * amp := by
            rw [abs_mul, abs_of_nonneg hamp]
        _ ≤ 2 * maxV + 2 * amp := by
            refine add_le_add ht ?_
            exact mul_le_mul_of_nonneg_right (noiseP_abs_le p _ _ _) hamp |>.trans (by linarith)
        _ = 2 * (maxV + amp) := by ring

/-- The fractal Brownian motion value is bounded by 2 in absolute value for
any nonnegative persistence: the accumulated total is at most twice the
accumulated maximum amplitude, so the final division is bounded. -/
theorem fbm_abs_le (p : ℕ → ℕ) (x y z : ℚ) (oct : ℕ) (pers scale : ℚ)
    (hp : 0 ≤ pers) : |fbm p x y z oct pers scale| ≤ 2 := by
  obtain ⟨ht, hm⟩ := fbmAux_abs_le p x y z pers hp oct scale 1 0 0 (by norm_num)
    (le_refl 0) (by norm_num)
  unfold fbm
  rcases eq_or_lt_of_le hm with hm0 | hm0
  · have : |(fbmAux p x y z pers oct scale 1 0 0).1| ≤ 0 := by rw [← hm0] at ht; linarith
    have h1 : (fbmAux p x y z pers oct scale 1 0 0).1 = 0 := abs_eq_zero.1 (le_antisymm this (abs_nonneg _))
    rw [h1]
    simp
  · rw [abs_div, abs_of_pos hm0, div_le_iff₀ hm0]
    linarith

/-- The clamp applied to every channel value stored into an ImageData pixel
buffer (a Uint8ClampedArray): values are clamped into [0, 255].  The bamboo
branch additionally spells the same clamp out as Math.max(0, Math.min(255,
v)) before storing. -/
def clampByte (v : ℚ) : ℚ := max 0 (min 255 v)

/-- The material tags accepted by createOrganicTexture. -/
inductive MatType
  | granite
  | bamboo
  | wood
  | sand
  | roughness
  | moss
deriving DecidableEq

/-- One RGBA pixel of an ImageData buffer. -/
structure RGBA where
  r : ℚ
  g : ℚ
  b : ℚ
  a : ℚ
deriving DecidableEq

/-- The per-pixel body of createOrganicTexture's synthesis loop.  sinF is the
ambient Math.sin (an external real function used only by the wood branch); p
is the permutation table; nx, ny are the normalized coordinates x/width,
y/height.  The material tags roughness and moss reach no branch of the loop,
so those pixels keep the zero-initialized ImageData contents (0,0,0,0). -/
def albedoPixel (sinF : ℚ → ℚ) (p : ℕ → ℕ) (t : MatType) (w h x y : ℕ) : RGBA :=
  let nx : ℚ := (x : ℚ) / (w : ℚ)
  let ny : ℚ := (y : ℚ) / (h : ℚ)
  match t with
  | MatType.granite =>
      let n1 := fbm p (nx * 15) (ny * 15) 0 4 0.5 1
      let n2 := fbm p (nx * 50) (ny * 50) 10 3 0.5 1
      let n3 := fbm p (nx * 100) (ny * 100) 20 2 0.5 1
      let baseVal := 0.4 + n1 * 0.3
      let r0 := baseVal * 160
      let g0 := baseVal * 165
      let b0 := baseVal * 170
      let r1 := if n2 < 0.3 then r0 * 0.5 else r0
      let g1 := if n2 < 0.3 then g0 * 0.5 else g0
      let b1 := if n2 < 0.3 then b0 * 0.5 else b0
      let r2 := if n3 > 0.7 then r1 + 40 else r1
      let g2 := if n3 > 0.7 then g1 + 40 else g1
      let b2 := if n3 > 0.7 then b1 + 40 else b1
      ⟨clampByte r2, clampByte g2, clampByte b2, 255⟩
  | MatType.bamboo =>
      let fiber := fbm p (nx * 80) (ny * 2) 0 5 0.6 1
      let stain := fbm p (nx * 4) (ny * 6) 32 4 0.5 1
      let fiberVar := (fiber - 0.5) * 40
      let stainVar := (stain - 0.5) * 50
      ⟨clampByte (110 + fiberVar - stainVar * 0.5),
       clampByte (140 + fiberVar - stainVar * 0.5),
       clampByte (80 + fiberVar - stainVar * 0.8), 255⟩
  | MatType.wood =>
      let grain := fbm p (nx * 6) (ny * 40 + sinF (nx * 10) * 3) 5 4 0.5 1
      ⟨clampByte (120 + grain * 30), clampByte (20 + grain * 10),
       clampByte (15 + grain * 10), 255⟩
  | MatType.sand =>
      let grain := fbm p (nx * 150) (ny * 150) 0 2 0.5 1
      let patch := fbm p (nx * 5) (ny * 5) 10 3 0.5 1
      let val := 200 + grain * 40 + patch * 15
      ⟨clampByte val, clampByte val, clampByte (val - 5), 255⟩
  | _ => ⟨0, 0, 0, 0⟩

/-- Modelled from the spec: the 2D raster-drawing primitive used by the
bamboo scuff overlay is an opaque external drawing surface outside the core
(section 6 of the design); a fillRect call is modelled as point-sampled
coverage of the pixel grid by the rectangle. -/
def coveredBy (rx ry rw rh : ℚ) (x y : ℕ) : Prop :=
  rx ≤ (x : ℚ) ∧ (x : ℚ) < rx + rw ∧ ry ≤ (y : ℚ) ∧ (y : ℚ) < ry + rh

instance (rx ry rw rh : ℚ) (x y : ℕ) : Decidable (coveredBy rx ry rw rh x y) := by
  unfold coveredBy; infer_instance

/-- Modelled from the spec: source-over compositing of one translucent scuff
rectangle fill (fillStyle rgba(60, 50, 30, 0.1)) onto an opaque canvas
pixel: each color channel blends 10 percent of the source into 90 percent of
the destination, and the pixel stays opaque. -/
def compositeScuff (c : RGBA) : RGBA :=
  ⟨0.9 * c.r + 0.1 * 60, 0.9 * c.g + 0.1 * 50, 0.9 * c.b + 0.1 * 30, c.a⟩

/-- The k-th scuff rectangle of the bamboo overlay loop: rx = random()*width,
ry = random()*height, w = 2 + random()*5, h = 10 + random()*30, with the four
draws taken in that order from the ambient random stream starting at
position idx. -/
def scuffRect (rand : ℕ → ℚ) (idx w h k : ℕ) : ℚ × ℚ × ℚ × ℚ :=
  (rand (idx + 4 * k) * w, rand (idx + 4 * k + 1) * h,
   2 + rand (idx + 4 * k + 2) * 5, 10 + rand (idx + 4 * k + 3) * 30)

/-- The first n scuff rectangles applied in draw order on top of a base
buffer: pixels covered by a rectangle are composited, others pass through. -/
def scuffed (rand : ℕ → ℚ) (idx w h : ℕ) : ℕ → (ℕ → ℕ → RGBA) → ℕ → ℕ → RGBA
  | 0, buf => buf
  | n + 1, buf => fun x y =>
      let prev := scuffed rand idx w h n buf x y
      let rect := scuffRect rand idx w h n
      if coveredBy rect.1 rect.2.1 rect.2.2.1 rect.2.2.2 x y then compositeScuff prev
      else prev

/-- createOrganicTexture as a state transformer: it runs setup, synthesizes
every pixel of the width-by-height buffer from the (now initialized)
permutation table, applies the 30-rectangle random scuff overlay when the
material is bamboo (consuming 4 random draws per rectangle), and returns the
buffer.  There is no cache keyed on the request: the per-pixel loop runs on
every call, which the synthCount field counts. -/
def createOrganicTextureS (sinF : ℚ → ℚ) (rand : ℕ → ℚ) (r : ℕ → ℕ)
    (s : GenState) (w h : ℕ) (t : MatType) : (ℕ → ℕ → RGBA) × GenState :=
  let s1 := setupS r s
  let base := fun x y => albedoPixel sinF s1.perm t w h x y
  let buf := if t = MatType.bamboo then scuffed rand s1.rngIdx w h 30 base else base
  (buf, { perm := s1.perm, init := s1.init,
          rngIdx := if t = MatType.bamboo then s1.rngIdx + 120 else s1.rngIdx,
          synthCount := s1.synthCount + 1 })

/-- The material tags accepted by createRoughnessMap. -/
inductive RoughType
  | stone
  | bamboo
  | sand
deriving DecidableEq

/-- The per-pixel scalar of createRoughnessMap's loop (the value val before
the multiplication by 255 at the store). -/
def roughnessVal (p : ℕ → ℕ) (t : RoughType) (w h x y : ℕ) : ℚ :=
  let nx : ℚ := (x : ℚ) / (w : ℚ)
  let ny : ℚ := (y : ℚ) / (h : ℚ)
  match t with
  | RoughType.stone => 0.4 + fbm p (nx * 60) (ny * 60) 5 3 0.5 1 * 0.6
  | RoughType.bamboo => 0.2 + fbm p (nx * 100) (ny * 2) 0 2 0.5 1 * 0.3
  | RoughType.sand => 0.8 + fbm p (nx * 100) (ny * 100) 0 2 0.5 1 * 0.2

/-- The byte stored into each of R, G, B by createRoughnessMap: val * 255,
clamped by the Uint8ClampedArray store. -/
def roughnessStored (p : ℕ → ℕ) (t : RoughType) (w h x y : ℕ) : ℚ :=
  clampByte (roughnessVal p t w h x y * 255)

/-- The horizontal central difference of createNormalMap's Sobel loop at
pixel (x,y): dx = (x1 - x2) * strength, where x1 and x2 sample the height
buffer at the left and right neighbor columns wrapped modulo width
((x - 1 + width) % width and (x + 1) % width; the JS sum x - 1 + width is
the natural number x + width - 1). -/
def sobelDx (buf : ℕ → ℚ) (w : ℕ) (strength : ℚ) (x y : ℕ) : ℚ :=
  (buf (y * w + (x + w - 1) % w) - buf (y * w + (x + 1) % w)) * strength

/-- The vertical central difference of createNormalMap's Sobel loop at pixel
(x,y): dy = (y1 - y2) * strength, with the neighbor rows wrapped modulo
height. -/
def sobelDy (buf : ℕ → ℚ) (w h : ℕ) (strength : ℚ) (x y : ℕ) : ℚ :=
  (buf (((y + h - 1) % h) * w + x) - buf (((y + 1) % h) * w + x)) * strength

/-- The constant Z-depth term of createNormalMap: dz = 1.0 / strength, with
no guard on strength.  The JS float division returns a non-finite value
exactly when strength is 0, modelled by none. -/
def dzTerm (strength : ℚ) : Option ℚ :=
  if strength = 0 then none else some (1 / strength)

/-- The squared Euclidean length of the gradient 3-vector whose square root
the source takes as len = Math.sqrt(dx*dx + dy*dy + dz*dz). -/
def normalLen2 (dx dy dz : ℚ) : ℚ := dx * dx + dy * dy + dz * dz

theorem swapF_self (p : ℕ → ℕ) (i : ℕ) : swapF p i i = p := by
  funext k
  unfold swapF
  split_ifs with h1
  · rw [h1]
  · rfl

/-- When every Fisher-Yates draw picks the current index (r i = i, a draw
the source's Math.floor(Math.random()*(i+1)) can produce), every swap is a
no-op, so the shuffled array stays the identity. -/
theorem fyAux_id : ∀ (n : ℕ) (p : ℕ → ℕ), fyAux (fun i => i) n p = p := by
  intro n
  induction n with
  | zero => intro p; rfl
  | succ n ih => intro p; rw [fyAux, swapF_self, ih]

/-- The identity permutation table is reachable by setup: with the draws
r i = i the table is i AND 255. -/
theorem permTable_id : permTable (fun i => i) = fun i => i % 256 := by
  funext i
  unfold permTable shuffle
  rw [fyAux_id]

/-- Counterexample to claim C3: with the reachable identity permutation
table, the sand roughness pixel at (x,y) = (3,0) of an 8-by-8 map has scalar
value 11/15 < 0.8, because the fbm noise contribution there is negative (the
gradient-noise field is signed, not non-negative). -/
theorem claim_C3_cex :
    roughnessVal (permTable (fun i => i)) RoughType.sand 8 8 3 0 < 0.8 := by
  rw [permTable_id]
  norm_num [roughnessVal, fbm, fbmAux, noiseP, grad, fade, lerp]
  simp
  norm_num

/-- Claim C3 amended: the sand roughness scalar is the base 0.8 plus a
signed noise contribution bounded by 2 in absolute value and scaled by 0.2,
so every sand pixel's scalar is at least 0.4 (and the stored byte at least
102): the 0.8 floor claimed does not hold, but no sand pixel reports
near-zero roughness. -/
theorem claim_C3_amended (p : ℕ → ℕ) (w h x y : ℕ) :
    2/5 ≤ roughnessVal p RoughType.sand w h x y ∧
    102 ≤ roughnessStored p RoughType.sand w h x y := by
  have hb := fbm_abs_le p ((x : ℚ) / (w : ℚ) * 100) ((y : ℚ) / (h : ℚ) * 100) 0 2
    0.5 1 (by norm_num)
  have hlo := (abs_le.1 hb).1
  have hval : roughnessVal p RoughType.sand w h x y
      = 0.8 + fbm p ((x : ℚ) / (w : ℚ) * 100) ((y : ℚ) / (h : ℚ) * 100) 0 2 0.5 1 * 0.2 := rfl
  constructor
  · rw [hval]; linarith
  · unfold roughnessStored clampByte
    rw [hval]
    have h102 : (102 : ℚ) ≤ min 255 ((0.8 + fbm p ((x : ℚ) / (w : ℚ) * 100)
        ((y : ℚ) / (h : ℚ) * 100) 0 2 0.5 1 * 0.2) * 255) :=
      le_min (by norm_num) (by linarith)
    exact h102.trans (le_max_right 0 _)

/-- A pixel as stored by the albedo synthesizer: all color channels within
the byte range and the alpha channel fully opaque. -/
def InByteRange (c : RGBA) : Prop :=
  0 ≤ c.r ∧ c.r ≤ 255 ∧ 0 ≤ c.g ∧ c.g ≤ 255 ∧ 0 ≤ c.b ∧ c.b ≤ 255 ∧ c.a = 255

theorem clampByte_nonneg (v : ℚ) : 0 ≤ clampByte v := le_max_left 0 _

theorem clampByte_le (v : ℚ) : clampByte v ≤ 255 := by
  unfold clampByte
  exact max_le (by norm_num) (min_le_left 255 v)

/-- Source-over compositing of the translucent scuff rectangle preserves the
byte range and the opaque alpha. -/
theorem compositeScuff_inRange (c : RGBA) (hc : InByteRange c) :
    InByteRange (compositeScuff c) := by
  obtain ⟨h1, h2, h3, h4, h5, h6, h7⟩ := hc
  unfold compositeScuff InByteRange
  refine ⟨by linarith, by linarith, by linarith, by linarith, by linarith, by linarith, h7⟩

/-- The random scuff overlay preserves the byte range and the opaque alpha
of every pixel of the base buffer, for any random draws. -/
theorem scuffed_inRange (rand : ℕ → ℚ) (idx w h : ℕ) :
    ∀ (n : ℕ) (buf : ℕ → ℕ → RGBA), (∀ x y, InByteRange (buf x y)) →
      ∀ x y, InByteRange (scuffed rand idx w h n buf x y) := by
  intro n
  induction n with
  | zero => intro buf hb x y; exact hb x y
  | succ n ih =>
      intro buf hb x y
      simp only [scuffed]
      split_ifs
      · exact compositeScuff_inRange _ (ih buf hb x y)
      · exact ih buf hb x y

/-- Counterexample to claim C4: the entry point accepts the material tag
moss, but no branch of the synthesis loop handles it, so the
zero-initialized ImageData is returned unchanged and the alpha channel of
every pixel is 0, not 255 (here at a 1-by-1 request, pixel (0,0), with the
reachable identity permutation table). -/
theorem claim_C4_cex :
    (albedoPixel (fun _ => 0) (permTable (fun i => i)) MatType.moss 1 1 0 0).a ≠ 255 := by
  norm_num [albedoPixel]

/-- Claim C4 amended: for every material tag with a synthesis branch
(granite, bamboo, wood, sand), every pixel stored by the albedo loop has all
color channels within [0,255] (the granite/wood/sand writes are clamped by
the Uint8ClampedArray store, the bamboo write by its explicit clamp) and
alpha exactly 255, and the bamboo scuff overlay preserves this; for the
unhandled tags moss and roughness the buffer stays transparent black.  In
particular the granite 4-by-4 instance of the claim holds. -/
theorem claim_C4_amended (sinF : ℚ → ℚ) (p : ℕ → ℕ) (t : MatType) (w h x y : ℕ)
    (ht : t = MatType.granite ∨ t = MatType.bamboo ∨ t = MatType.wood ∨ t = MatType.sand) :
    InByteRange (albedoPixel sinF p t w h x y) ∧
    ∀ rand idx n, InByteRange
      (scuffed rand idx w h n (fun u v => albedoPixel sinF p t w h u v) x y) := by
  have hbase : ∀ u v, InByteRange (albedoPixel sinF p t w h u v) := by
    intro u v
    rcases ht with rfl | rfl | rfl | rfl <;>
      exact ⟨clampByte_nonneg _, clampByte_le _, clampByte_nonneg _, clampByte_le _,
        clampByte_nonneg _, clampByte_le _, rfl⟩
  exact ⟨hbase x y, fun rand idx n => scuffed_inRange rand idx w h n _ hbase x y⟩

/-- Witness for the amended claim C4, at the granite tag and the 4-by-4
request of the claim's fixed-table instance, pixel (0,0). -/
theorem claim_C4_amended_witness :
    (MatType.granite = MatType.granite ∨ MatType.granite = MatType.bamboo ∨
     MatType.granite = MatType.wood ∨ MatType.granite = MatType.sand) ∧
    (InByteRange (albedoPixel (fun _ => 0) (permTable (fun i => i)) MatType.granite 4 4 0 0) ∧
     ∀ rand idx n, InByteRange (scuffed rand idx 4 4 n
       (fun u v => albedoPixel (fun _ => 0) (permTable (fun i => i)) MatType.granite 4 4 u v) 0 0)) :=
  ⟨Or.inl rfl,
   claim_C4_amended (fun _ => 0) (permTable (fun i => i)) MatType.granite 4 4 0 0 (Or.inl rfl)⟩

/-- A concrete ambient random stream for the bamboo scuff overlay: the first
four draws (the first rectangle of the first call) are 0, every later draw
is 1/2. -/
def rand1 : ℕ → ℚ := fun n => if n < 4 then 0 else 1/2

/-- Under rand1, the first call's overlay pass (stream position 0) composites
pixel (0,0) exactly once: the first rectangle (0,0,2,10) covers it and the
other 29 rectangles (2,2,9/2,25) do not. -/
theorem scuffedHitOnce (buf : ℕ → ℕ → RGBA) :
    scuffed rand1 0 4 4 30 buf 0 0 = compositeScuff (buf 0 0) := by
  norm_num [scuffed, scuffRect, rand1, coveredBy]

/-- Under rand1, the second call's overlay pass (stream position 120) leaves
pixel (0,0) untouched: all 30 of its rectangles are (2,2,9/2,25). -/
theorem scuffedMissAll (buf : ℕ → ℕ → RGBA) :
    scuffed rand1 120 4 4 30 buf 0 0 = buf 0 0 := by
  norm_num [scuffed, scuffRect, rand1, coveredBy]

/-- The bamboo base pixel (0,0) of a 4-by-4 request under the identity
permutation table: both fbm samples sit on the integer lattice and vanish,
giving (205/2, 265/2, 80, 255). -/
theorem bambooBasePixel :
    albedoPixel (fun _ => 0) (fun i => i % 256) MatType.bamboo 4 4 0 0
      = ⟨205/2, 265/2, 80, 255⟩ := by
  norm_num [albedoPixel, fbm, fbmAux, noiseP, grad, fade, lerp, clampByte]

/-- Counterexample to claim C1: the source has no texture cache.  First,
issuing the same granite 4-by-4 request twice from a fresh generator state
runs the per-pixel synthesis loop twice — the synthesis-pass counter reads 2
after the second call, where the claim requires at most one synthesis per
distinct request key.  Second, two identical bamboo requests do not even
return pixel-identical buffers: the random scuff overlay consumes fresh
draws on the second call (here, under the reachable identity table and the
concrete stream rand1, the red channel of pixel (0,0) is 393/4 after the
first call but 205/2 after the second). -/
theorem claim_C1_cex :
    (createOrganicTextureS (fun _ => 0) (fun _ => 0) (fun _ => 0)
      ((createOrganicTextureS (fun _ => 0) (fun _ => 0) (fun _ => 0) s0
        4 4 MatType.granite).2) 4 4 MatType.granite).2.synthCount = 2 ∧
    ((createOrganicTextureS (fun _ => 0) rand1 (fun i => i) s0
        4 4 MatType.bamboo).1 0 0).r
      ≠ ((createOrganicTextureS (fun _ => 0) rand1 (fun i => i)
          ((createOrganicTextureS (fun _ => 0) rand1 (fun i => i) s0
            4 4 MatType.bamboo).2) 4 4 MatType.bamboo).1 0 0).r := by
  constructor
  · rfl
  · have hc1 : (createOrganicTextureS (fun _ => 0) rand1 (fun i => i) s0
        4 4 MatType.bamboo).1
      = scuffed rand1 0 4 4 30
          (fun u v => albedoPixel (fun _ => 0) (permTable (fun i => i))
            MatType.bamboo 4 4 u v) := by
      simp [createOrganicTextureS, setupS, s0]
    have hc2 : (createOrganicTextureS (fun _ => 0) rand1 (fun i => i)
        ((createOrganicTextureS (fun _ => 0) rand1 (fun i => i) s0
          4 4 MatType.bamboo).2) 4 4 MatType.bamboo).1
      = scuffed rand1 120 4 4 30
          (fun u v => albedoPixel (fun _ => 0) (permTable (fun i => i))
            MatType.bamboo 4 4 u v) := by
      simp [createOrganicTextureS, setupS, s0]
    rw [hc1, hc2, scuffedHitOnce, scuffedMissAll, permTable_id, bambooBasePixel]
    norm_num [compositeScuff]

/-- Claim C1 amended: there is no cache, so each of two identical requests
runs its own synthesis pass (the counter advances by 2, not 1); for the
purely noise-based material types (granite, wood, sand) the two returned
buffers are nevertheless pixel-identical, because the per-pixel loop is a
pure function of the permutation table, which the first call fixes.  (The
bamboo buffer is excluded: its scuff overlay consumes fresh random draws on
every call.) -/
theorem claim_C1_amended (sinF : ℚ → ℚ) (rand : ℕ → ℚ) (r : ℕ → ℕ) (s : GenState)
    (w h : ℕ) (t : MatType)
    (ht : t = MatType.granite ∨ t = MatType.wood ∨ t = MatType.sand) :
    (createOrganicTextureS sinF rand r
        (createOrganicTextureS sinF rand r s w h t).2 w h t).1
      = (createOrganicTextureS sinF rand r s w h t).1 ∧
    (createOrganicTextureS sinF rand r
        (createOrganicTextureS sinF rand r s w h t).2 w h t).2.synthCount
      = s.synthCount + 2 := by
  rcases ht with rfl | rfl | rfl <;> by_cases hs : s.init <;>
    simp [createOrganicTextureS, setupS, hs]

/-- Witness for the amended claim C1, at the granite 4-by-4 request from the
uninitialized base state. -/
theorem claim_C1_amended_witness :
    (MatType.granite = MatType.granite ∨ MatType.granite = MatType.wood ∨
     MatType.granite = MatType.sand) ∧
    ((createOrganicTextureS (fun _ => 0) (fun _ => 0) (fun _ => 0)
        (createOrganicTextureS (fun _ => 0) (fun _ => 0) (fun _ => 0) s0
          4 4 MatType.granite).2 4 4 MatType.granite).1
      = (createOrganicTextureS (fun _ => 0) (fun _ => 0) (fun _ => 0) s0
          4 4 MatType.granite).1 ∧
     (createOrganicTextureS (fun _ => 0) (fun _ => 0) (fun _ => 0)
        (createOrganicTextureS (fun _ => 0) (fun _ => 0) (fun _ => 0) s0
          4 4 MatType.granite).2 4 4 MatType.granite).2.synthCount
      = s0.synthCount + 2) :=
  ⟨Or.inl rfl, claim_C1_amended (fun _ => 0) (fun _ => 0) (fun _ => 0) s0
    4 4 MatType.granite (Or.inl rfl)⟩

/-- Counterexample to claim C2: the normal-map deriver applies no
minimum-strength floor to its strength parameter; at strength 0 the Z-depth
division 1.0 / strength yields a non-finite value (modelled as none), so the
guard the claim describes does not exist in the code. -/
theorem claim_C2_cex : dzTerm 0 = none := rfl

/-- Claim C2 amended: no minimum-strength floor is applied — dz is computed
as exactly 1/strength.  For every nonzero strength the Z-depth term is the
finite value 1/strength and the squared length of the gradient vector is
strictly positive (so the subsequent normalization divides by a nonzero
finite length and writes finite values); at strength 0 the term is
non-finite. -/
theorem claim_C2_amended (strength : ℚ) (hs : strength ≠ 0) (buf : ℕ → ℚ)
    (w h x y : ℕ) :
    dzTerm strength = some (1 / strength) ∧
    0 < normalLen2 (sobelDx buf w strength x y) (sobelDy buf w h strength x y)
      (1 / strength) := by
  constructor
  · simp [dzTerm, hs]
  · unfold normalLen2
    have h1 : 0 < (1 / strength) * (1 / strength) :=
      mul_self_pos.mpr (one_div_ne_zero hs)
    nlinarith [mul_self_nonneg (sobelDx buf w strength x y),
      mul_self_nonneg (sobelDy buf w h strength x y)]

/-- Witness for the amended claim C2, at strength 5 (a strength the scene
actually passes) on the zero height buffer. -/
theorem claim_C2_amended_witness :
    (5 : ℚ) ≠ 0 ∧
    (dzTerm 5 = some (1 / 5) ∧
     0 < normalLen2 (sobelDx (fun _ => 0) 4 5 0 0) (sobelDy (fun _ => 0) 4 4 5 0 0)
       (1 / 5)) :=
  ⟨by norm_num, claim_C2_amended 5 (by norm_num) (fun _ => 0) 4 4 0 0⟩

/-- Claim C5: at every pixel, the encoded normal vector (dx/len, dy/len,
dz/len) — where dx, dy are the wrapped central differences scaled by
strength, dz = 1/strength, and len is the Euclidean length of (dx, dy, dz),
i.e. any positive l with l*l equal to the squared length — has squared norm
exactly 1, hence norm within the claimed 1e-3 tolerance of 1. -/
theorem claim_C5 (buf : ℕ → ℚ) (w h x y : ℕ) (strength l : ℚ) (hl : 0 < l)
    (hlen : l * l = normalLen2 (sobelDx buf w strength x y)
      (sobelDy buf w h strength x y) (1 / strength)) :
    (sobelDx buf w strength x y / l) * (sobelDx buf w strength x y / l)
      + (sobelDy buf w h strength x y / l) * (sobelDy buf w h strength x y / l)
      + ((1 / strength) / l) * ((1 / strength) / l) = 1 ∧
    |(sobelDx buf w strength x y / l) * (sobelDx buf w strength x y / l)
      + (sobelDy buf w h strength x y / l) * (sobelDy buf w h strength x y / l)
      + ((1 / strength) / l) * ((1 / strength) / l) - 1| ≤ 1 / 1000 := by
  have hl0 : l ≠ 0 := ne_of_gt hl
  unfold normalLen2 at hlen
  have h1 : (sobelDx buf w strength x y / l) * (sobelDx buf w strength x y / l)
      + (sobelDy buf w h strength x y / l) * (sobelDy buf w h strength x y / l)
      + ((1 / strength) / l) * ((1 / strength) / l) = 1 := by
    generalize hc : (1 : ℚ) / strength = c at hlen ⊢
    field_simp
    linarith
  exact ⟨h1, by rw [h1]; norm_num⟩

/-- Witness for claim C5: on the zero height buffer with strength 1 the
gradient vector is (0, 0, 1) and l = 1 is its length. -/
theorem claim_C5_witness :
    (0 : ℚ) < 1 ∧
    (1 : ℚ) * 1 = normalLen2 (sobelDx (fun _ => 0) 4 1 0 0)
      (sobelDy (fun _ => 0) 4 4 1 0 0) (1 / 1) ∧
    ((sobelDx (fun _ => 0) 4 1 0 0 / 1) * (sobelDx (fun _ => 0) 4 1 0 0 / 1)
      + (sobelDy (fun _ => 0) 4 4 1 0 0 / 1) * (sobelDy (fun _ => 0) 4 4 1 0 0 / 1)
      + ((1 / 1) / 1) * ((1 / 1) / 1) = 1 ∧
     |(sobelDx (fun _ => 0) 4 1 0 0 / 1) * (sobelDx (fun _ => 0) 4 1 0 0 / 1)
      + (sobelDy (fun _ => 0) 4 4 1 0 0 / 1) * (sobelDy (fun _ => 0) 4 4 1 0 0 / 1)
      + ((1 / 1) / 1) * ((1 / 1) / 1) - 1| ≤ 1 / 1000) :=
  ⟨by norm_num, by norm_num [normalLen2, sobelDx, sobelDy],
   claim_C5 (fun _ => 0) 4 4 0 0 1 1 (by norm_num)
     (by norm_num [normalLen2, sobelDx, sobelDy])⟩

/-- Claim C6: the Sobel stage samples the height buffer with toroidal
wrap-around, never clamping: evaluating the horizontal difference formula at
column width gives exactly the column-0 difference (and likewise row height
gives the row-0 difference), and the left neighbor of column 0 is column
width-1 while the right neighbor of column width-1 wraps to column 0. -/
theorem claim_C6 (buf : ℕ → ℚ) (w h : ℕ) (strength : ℚ) (x y : ℕ)
    (hw : 0 < w) (hh : 0 < h) :
    sobelDx buf w strength w y = sobelDx buf w strength 0 y ∧
    sobelDy buf w h strength x h = sobelDy buf w h strength x 0 ∧
    (0 + w - 1) % w = w - 1 ∧ (w - 1 + 1) % w = 0 := by
  have e1 : (w + w - 1) % w = (0 + w - 1) % w := by
    have a1 : w + w - 1 = w + (w - 1) := by omega
    have a2 : 0 + w - 1 = w - 1 := by omega
    rw [a1, a2, Nat.add_mod_left]
  have e2 : (w + 1) % w = (0 + 1) % w := by
    rw [Nat.add_comm w 1, Nat.add_mod_right]
  have e3 : (h + h - 1) % h = (0 + h - 1) % h := by
    have a1 : h + h - 1 = h + (h - 1) := by omega
    have a2 : 0 + h - 1 = h - 1 := by omega
    rw [a1, a2, Nat.add_mod_left]
  have e4 : (h + 1) % h = (0 + 1) % h := by
    rw [Nat.add_comm h 1, Nat.add_mod_right]
  refine ⟨?_, ?_, ?_, ?_⟩
  · unfold sobelDx
    rw [e1, e2]
  · unfold sobelDy
    rw [e3, e4]
  · have a2 : 0 + w - 1 = w - 1 := by omega
    rw [a2]
    exact Nat.mod_eq_of_lt (by omega)
  · have a3 : w - 1 + 1 = w := by omega
    rw [a3, Nat.mod_self]

/-- Witness for claim C6, at a 4-by-4 buffer. -/
theorem claim_C6_witness :
    0 < 4 ∧ 0 < 4 ∧
    (sobelDx (fun _ => 0) 4 1 4 0 = sobelDx (fun _ => 0) 4 1 0 0 ∧
     sobelDy (fun _ => 0) 4 4 1 0 4 = sobelDy (fun _ => 0) 4 4 1 0 0 ∧
     (0 + 4 - 1) % 4 = 4 - 1 ∧ (4 - 1 + 1) % 4 = 0) :=
  ⟨by norm_num, by norm_num,
   claim_C6 (fun _ => 0) 4 4 1 0 0 (by norm_num) (by norm_num)⟩
